import Mathlib

/-! Shallow embedding of the Ying-Yang volatility trading pipeline of
`class_yingyangvol.py`.  A price series is a function from row index to the
rational close price; a pandas missing value (NaN) is `none`; float
arithmetic is modelled exactly over `ℚ`, with the square roots taken in `ℝ`.
Row indexes play the role of the timestamp index (the OHLC frame is indexed
by increasing timestamps, so position and index order agree). -/

namespace YYV

/-- Constructor state of `YingYangTradingBot` that the pipeline reads:
the baseline mode flag `ema`, the rolling `window` and the slow `span`. -/
structure Config where
  ema : Bool
  window : ℕ
  span : ℕ

/-- All-or-nothing collection of a list of optional values: `some` of the
values when every entry is present, `none` as soon as one is missing.  This
is how a pandas rolling window with the default `min_periods` treats NaN
entries inside the window. -/
def collect {α : Type} : List (Option α) → Option (List α)
  | [] => some []
  | none :: _ => none
  | some a :: rest => (collect rest).map (fun l => a :: l)

/-- `Series.rolling(window=w).mean()` at row `t`: the arithmetic mean of the
`w` trailing entries `f t, f (t-1), …`, missing while fewer than `w` rows
exist or some trailing entry is missing. -/
def rollMean {α : Type} [DivisionRing α] (w : ℕ) (f : ℕ → Option α) (t : ℕ) :
    Option α :=
  if w ≤ t + 1 then
    (collect ((List.range w).map (fun i => f (t - i)))).map (fun l => l.sum / (w : α))
  else none

/-- `Series.ewm(span=w, adjust=False).mean()` at row `t`:
`e 0 = c 0` and `e (t+1) = a * c (t+1) + (1 - a) * e t` with `a = 2/(w+1)`. -/
def ewmMean (w : ℕ) (c : ℕ → ℚ) : ℕ → ℚ
  | 0 => c 0
  | t + 1 => 2 / ((w : ℚ) + 1) * c (t + 1) + (1 - 2 / ((w : ℚ) + 1)) * ewmMean w c t

/-- The trend baseline of `calculate_volatility` (lines 73-76): an
exponential moving average over `window` when `self.ema` holds, otherwise a
simple rolling mean over `window`. -/
def ma (cfg : Config) (c : ℕ → ℚ) (t : ℕ) : Option ℚ :=
  if cfg.ema then some (ewmMean cfg.window c t)
  else rollMean cfg.window (fun i => some (c i)) t

/-- Line 78: `diff = price_close - ma`. -/
def diff (cfg : Config) (c : ℕ → ℚ) (t : ℕ) : Option ℚ :=
  (ma cfg c t).map (fun m => c t - m)

/-- The summand of line 81, `diff**2 * (diff > 0)`: a float NaN propagates,
otherwise the squared deviation gated by its sign. -/
def yangTerm (cfg : Config) (c : ℕ → ℚ) (t : ℕ) : Option ℚ :=
  (diff cfg c t).map (fun d => if 0 < d then d ^ 2 else 0)

/-- The summand of line 82, `diff**2 * (diff <= 0)`. -/
def yingTerm (cfg : Config) (c : ℕ → ℚ) (t : ℕ) : Option ℚ :=
  (diff cfg c t).map (fun d => if d ≤ 0 then d ^ 2 else 0)

/-- The radicand of `yang_vol` (line 81): the rolling mean over `window` of
the gated squared deviations. -/
def yangVolSq (cfg : Config) (c : ℕ → ℚ) (t : ℕ) : Option ℚ :=
  rollMean cfg.window (yangTerm cfg c) t

/-- The radicand of `ying_vol` (line 82). -/
def yingVolSq (cfg : Config) (c : ℕ → ℚ) (t : ℕ) : Option ℚ :=
  rollMean cfg.window (yingTerm cfg c) t

/-- The radicand of `total_vol`, kept in `ℚ` so that definedness of the
oscillator (the zero test of line 84's denominator) stays decidable. -/
def totalVolSq (cfg : Config) (c : ℕ → ℚ) (t : ℕ) : Option ℚ :=
  match yangVolSq cfg c t, yingVolSq cfg c t with
  | some a, some b => some (a + b)
  | _, _ => none

/-- Line 81: `yang_vol = np.sqrt((diff**2 * (diff > 0)).rolling(window).mean())`. -/
noncomputable def yang_vol (cfg : Config) (c : ℕ → ℚ) (t : ℕ) : Option ℝ :=
  (yangVolSq cfg c t).map (fun q => Real.sqrt (q : ℝ))

/-- Line 82: `ying_vol = np.sqrt((diff**2 * (diff <= 0)).rolling(window).mean())`. -/
noncomputable def ying_vol (cfg : Config) (c : ℕ → ℚ) (t : ℕ) : Option ℝ :=
  (yingVolSq cfg c t).map (fun q => Real.sqrt (q : ℝ))

/-- Line 83: `total_vol = np.sqrt(yang_vol**2 + ying_vol**2)`. -/
noncomputable def total_vol (cfg : Config) (c : ℕ → ℚ) (t : ℕ) : Option ℝ :=
  match yang_vol cfg c t, ying_vol cfg c t with
  | some a, some b => some (Real.sqrt (a ^ 2 + b ^ 2))
  | _, _ => none

/-- Line 84: `YYL = ((yang_vol - ying_vol) / total_vol) * 100`.  A zero
denominator forces a zero numerator (both volatilities are then zero), so
the float quotient is `0/0 = NaN`, i.e. the row is missing. -/
noncomputable def YYL (cfg : Config) (c : ℕ → ℚ) (t : ℕ) : Option ℝ :=
  match yang_vol cfg c t, ying_vol cfg c t, total_vol cfg c t with
  | some a, some b, some tv => if tv = 0 then none else some ((a - b) / tv * 100)
  | _, _, _ => none

/-- Line 85: `YYL_slow = YYL.rolling(window=slow_window).mean()` with
`slow_window = self.span`. -/
noncomputable def YYL_slow (cfg : Config) (c : ℕ → ℚ) (t : ℕ) : Option ℝ :=
  rollMean cfg.span (YYL cfg c) t

/-- The columns of `self.ying_yang_vol` (lines 87-94) plus the timestamp
index the frame carries. -/
structure VolFrame where
  idx : List ℕ
  ma : ℕ → Option ℚ
  yang_vol : ℕ → Option ℝ
  ying_vol : ℕ → Option ℝ
  total_vol : ℕ → Option ℝ
  YYL : ℕ → Option ℝ
  YYL_slow : ℕ → Option ℝ

/-- The volatility frame `calculate_volatility` builds from a price series
of `n` rows. -/
noncomputable def mkVolFrame (cfg : Config) (c : ℕ → ℚ) (n : ℕ) : VolFrame :=
  ⟨List.range n, ma cfg c, yang_vol cfg c, ying_vol cfg c, total_vol cfg c,
    YYL cfg c, YYL_slow cfg c⟩

/-- `calculate_volatility` (lines 68-96): raises when the price data is
absent or empty, otherwise returns the volatility frame. -/
noncomputable def calculate_volatility (cfg : Config) (price : Option (List ℚ)) :
    Except String VolFrame :=
  match price with
  | none => .error "Price data is not available. Please download data first."
  | some l =>
    if l = [] then .error "Price data is not available. Please download data first."
    else .ok (mkVolFrame cfg (fun t => l.getD t 0) l.length)

/-- The columns of `self.pan_bands` (lines 106-111) plus its index. -/
structure BandFrame where
  idx : List ℕ
  upper_band : ℕ → Option ℝ
  lower_band : ℕ → Option ℝ
  pan_river_up : ℕ → Option ℝ
  pan_river_down : ℕ → Option ℝ

/-- `calculate_pan_bands` (lines 98-113): raises only when the volatility
frame is absent.  The band arithmetic is pandas index-aligned: a row
contributes a value only where both the price index (`t < n`) and the
volatility frame's index carry it, and a missing `yang_vol`/`ying_vol`
propagates into the band. -/
noncomputable def calculate_pan_bands (cfg : Config) (c : ℕ → ℚ) (n : ℕ)
    (vol : Option VolFrame) : Except String BandFrame :=
  match vol with
  | none => .error "Volatility must be calculated before Pan Bands."
  | some vf =>
    let ma2 : ℕ → ℚ := ewmMean cfg.span c
    let upper : ℕ → Option ℝ := fun t =>
      if t < n ∧ t ∈ vf.idx then (vf.yang_vol t).map (fun a => (ma2 t : ℝ) + 2 * a)
      else none
    let lower : ℕ → Option ℝ := fun t =>
      if t < n ∧ t ∈ vf.idx then (vf.ying_vol t).map (fun b => (ma2 t : ℝ) - 2 * b)
      else none
    .ok ⟨(List.range n).union vf.idx, upper, lower,
      fun t => (upper t).map (fun u => ((ma2 t : ℝ) + u) / 2),
      fun t => (lower t).map (fun l => ((ma2 t : ℝ) + l) / 2)⟩

/-- `Except.isOk`, named locally so the error claims can state it. -/
def exceptIsOk {α : Type} : Except String α → Bool
  | .ok _ => true
  | .error _ => false

/-- The float comparison `a < x` of line 136: false on a missing value. -/
def optLt (a : Option ℝ) (x : ℝ) : Prop :=
  match a with
  | some v => v < x
  | none => False

/-- The float comparison `a > x` of line 139: false on a missing value. -/
def optGt (a : Option ℝ) (x : ℝ) : Prop :=
  match a with
  | some v => x < v
  | none => False

/-- The status lambda of lines 124-127: `1` when `YYL > YYL_slow`, `-1` when
`YYL < YYL_slow`, else `0`; every comparison with a missing value is false,
so an undefined row gets status `0`. -/
noncomputable def status (yyl yyls : ℕ → Option ℝ) (t : ℕ) : ℤ :=
  match yyl t, yyls t with
  | some a, some b => if b < a then 1 else if a < b then -1 else 0
  | _, _ => 0

/-- One row of the `signals` frame of `trading_signal` (lines 121-143):
every column is default-filled with `0` before the loop runs. -/
structure SignalRow where
  Signal : ℤ
  Position : ℤ
  Entry_Price : ℝ
  Exit_Price : ℝ

open Classical

/-- The loop body of `trading_signal` (lines 130-141) as a per-row function:
row `0` keeps the defaults (the loop starts at `1`); a later row compares
`status` with its predecessor and gates the flip with the `±75` extremity
thresholds. -/
noncomputable def trading_signal (yyl yyls : ℕ → Option ℝ) (close : ℕ → ℝ)
    (t : ℕ) : SignalRow :=
  if t = 0 then ⟨0, 0, 0, 0⟩
  else
    if (status yyl yyls t - status yyl yyls (t - 1) = 2 ∨
        status yyl yyls t - status yyl yyls (t - 1) = 1) ∧ optLt (yyl t) (-75) then
      ⟨1, 0, close t, 0⟩
    else if (status yyl yyls t - status yyl yyls (t - 1) = -2 ∨
        status yyl yyls t - status yyl yyls (t - 1) = -1) ∧ optGt (yyl t) 75 then
      ⟨-1, 0, 0, close t⟩
    else ⟨0, 0, 0, 0⟩

/-- The row `get_last_signal` summarises (lines 156-161). -/
structure LastSignal where
  Ticker : String
  last_signal : String
  timestamp : ℕ
  entry_price : ℝ

/-- Whether row `t` of the joined frame
`ying_yang_vol.join(pan_bands).join(close).join(signals)` survives
`dropna()`: the close and the default-filled signal columns are never
missing, so only the ten volatility and band columns matter. -/
noncomputable def rowComplete (vf : VolFrame) (bf : BandFrame) (t : ℕ) : Bool :=
  (vf.ma t).isSome && (vf.yang_vol t).isSome && (vf.ying_vol t).isSome &&
  (vf.total_vol t).isSome && (vf.YYL t).isSome && (vf.YYL_slow t).isSome &&
  (bf.upper_band t).isSome && (bf.lower_band t).isSome &&
  (bf.pan_river_up t).isSome && (bf.pan_river_down t).isSome

/-- `get_last_signal` (lines 146-164): raises when the signals frame is
absent; joins everything over the `n`-row price index, drops the incomplete
rows, and fails (`df.index[-1]` on an empty frame) when none remain,
otherwise summarises the last surviving row. -/
noncomputable def get_last_signal (symbol : String) (vf : VolFrame)
    (bf : BandFrame) (close : ℕ → ℝ) (signals : Option (ℕ → SignalRow))
    (n : ℕ) : Except String LastSignal :=
  match signals with
  | none => .error "Trading signals must be generated before getting last signal."
  | some s =>
    match ((List.range n).filter (fun t => rowComplete vf bf t)).getLast? with
    | none => .error "single positional indexer is out-of-bounds"
    | some t =>
      .ok ⟨symbol,
        if (s t).Signal = 1 then "Buy"
        else if (s t).Signal = -1 then "Sell" else "No Signal",
        t, close t⟩

/-! ### Basic lemmas about the windowed statistics -/

lemma collect_isSome_iff {α : Type} (L : List (Option α)) :
    (collect L).isSome = true ↔ ∀ o ∈ L, o.isSome = true := by
  induction L with
  | nil => simp [collect]
  | cons o rest ih =>
    cases o with
    | none => simp [collect]
    | some a => simpa [collect, Option.isSome_map'] using ih

lemma collect_mem {α : Type} {L : List (Option α)} {l : List α}
    (h : collect L = some l) : ∀ a ∈ l, some a ∈ L := by
  induction L generalizing l with
  | nil =>
    simp only [collect, Option.some_inj] at h
    subst h; simp
  | cons o rest ih =>
    cases o with
    | none => simp [collect] at h
    | some b =>
      simp only [collect, Option.map_eq_some'] at h
      obtain ⟨l', hl', rfl⟩ := h
      intro a ha
      rcases List.mem_cons.mp ha with rfl | ha'
      · exact List.mem_cons_self _ _
      · exact List.mem_cons_of_mem _ (ih hl' a ha')

lemma collect_replicate {α : Type} (m : ℕ) (a : α) :
    collect (List.replicate m (some a)) = some (List.replicate m a) := by
  induction m with
  | zero => rfl
  | succ m ih => simp [List.replicate_succ, collect, ih]

lemma rollMean_isSome_iff {α : Type} [DivisionRing α] (w : ℕ) (f : ℕ → Option α)
    (t : ℕ) :
    (rollMean w f t).isSome = true ↔ w ≤ t + 1 ∧ ∀ i < w, (f (t - i)).isSome = true := by
  unfold rollMean
  split
  · rename_i hw
    simp only [Option.isSome_map', collect_isSome_iff, hw, true_and]
    constructor
    · intro h i hi
      exact h _ (List.mem_map_of_mem _ (List.mem_range.mpr hi))
    · intro h o ho
      obtain ⟨i, hi, rfl⟩ := List.mem_map.mp ho
      exact h i (List.mem_range.mp hi)
  · rename_i hw
    simp [hw]

lemma rollMean_nonneg {w t : ℕ} {f : ℕ → Option ℚ} {q : ℚ}
    (hf : ∀ i v, f i = some v → 0 ≤ v) (h : rollMean w f t = some q) : 0 ≤ q := by
  unfold rollMean at h
  split at h
  · obtain ⟨l, hl, rfl⟩ := Option.map_eq_some'.mp h
    refine div_nonneg (List.sum_nonneg ?_) (by positivity)
    intro x hx
    have hmem := collect_mem hl x hx
    obtain ⟨i, _, hfi⟩ := List.mem_map.mp hmem
    exact hf _ _ hfi
  · exact absurd h (by simp)

lemma rollMean_allZero {w t : ℕ} {f : ℕ → Option ℚ} (hf : ∀ i, f i = some 0) :
    rollMean w f t = if w ≤ t + 1 then some 0 else none := by
  unfold rollMean
  split
  · have hrep : (List.range w).map (fun i => f (t - i)) =
        List.replicate w (some (0 : ℚ)) := by
      refine List.eq_replicate_iff.mpr ⟨by simp, ?_⟩
      intro b hb
      obtain ⟨i, _, rfl⟩ := List.mem_map.mp hb
      exact hf _
    rw [hrep, collect_replicate]
    simp
  · rfl

lemma rollMean_allConst {w t : ℕ} {a : ℚ} {f : ℕ → Option ℚ} (hw : w ≠ 0)
    (hf : ∀ i, f i = some a) :
    rollMean w f t = if w ≤ t + 1 then some a else none := by
  unfold rollMean
  split
  · have hrep : (List.range w).map (fun i => f (t - i)) =
        List.replicate w (some a) := by
      refine List.eq_replicate_iff.mpr ⟨by simp, ?_⟩
      intro b hb
      obtain ⟨i, _, rfl⟩ := List.mem_map.mp hb
      exact hf _
    rw [hrep, collect_replicate]
    have hwq : (w : ℚ) ≠ 0 := Nat.cast_ne_zero.mpr hw
    simp [List.sum_replicate, nsmul_eq_mul, mul_div_assoc]
    field_simp
  · rfl

lemma ewmMean_const (w : ℕ) (k : ℚ) (t : ℕ) : ewmMean w (fun _ => k) t = k := by
  induction t with
  | zero => rfl
  | succ t ih =>
    simp only [ewmMean, ih]
    ring

lemma yangVolSq_nonneg {cfg : Config} {c : ℕ → ℚ} {t : ℕ} {q : ℚ}
    (h : yangVolSq cfg c t = some q) : 0 ≤ q := by
  refine rollMean_nonneg ?_ h
  intro i v hv
  obtain ⟨d, _, rfl⟩ := Option.map_eq_some'.mp hv
  split <;> positivity

lemma yingVolSq_nonneg {cfg : Config} {c : ℕ → ℚ} {t : ℕ} {q : ℚ}
    (h : yingVolSq cfg c t = some q) : 0 ≤ q := by
  refine rollMean_nonneg ?_ h
  intro i v hv
  obtain ⟨d, _, rfl⟩ := Option.map_eq_some'.mp hv
  split <;> positivity

/-! ### C3: total volatility dominates each component -/

/-- C3: at every row of the volatility frame where `yang_vol`, `ying_vol`
and `total_vol` are all defined, `total_vol` is at least the larger of the
two one-sided volatilities (it is the Euclidean norm of the pair, and both
components are square roots, hence nonnegative). -/
theorem C3_total_vol_dominates (cfg : Config) (c : ℕ → ℚ) (t : ℕ) (va vb vt : ℝ)
    (h1 : yang_vol cfg c t = some va) (h2 : ying_vol cfg c t = some vb)
    (h3 : total_vol cfg c t = some vt) : max va vb ≤ vt := by
  have hva : 0 ≤ va := by
    obtain ⟨q, _, hq⟩ := Option.map_eq_some'.mp h1
    exact hq ▸ Real.sqrt_nonneg _
  have hvb : 0 ≤ vb := by
    obtain ⟨q, _, hq⟩ := Option.map_eq_some'.mp h2
    exact hq ▸ Real.sqrt_nonneg _
  have htv : vt = Real.sqrt (va ^ 2 + vb ^ 2) := by
    unfold total_vol at h3
    rw [h1, h2] at h3
    simpa using h3.symm
  subst htv
  apply max_le
  · calc va = Real.sqrt (va ^ 2) := (Real.sqrt_sq hva).symm
      _ ≤ Real.sqrt (va ^ 2 + vb ^ 2) := Real.sqrt_le_sqrt (by nlinarith [sq_nonneg vb])
  · calc vb = Real.sqrt (vb ^ 2) := (Real.sqrt_sq hvb).symm
      _ ≤ Real.sqrt (va ^ 2 + vb ^ 2) := Real.sqrt_le_sqrt (by nlinarith [sq_nonneg va])

/-- Witness configuration: exponential baseline, `window = span = 1`. -/
def cfg1 : Config := ⟨true, 1, 1⟩

/-- Witness price series: constant zero closes. -/
def czero : ℕ → ℚ := fun _ => 0

lemma yangVolSq_cfg1_czero : yangVolSq cfg1 czero 0 = some 0 := by
  norm_num [yangVolSq, rollMean, collect, yangTerm, diff, ma, cfg1, czero, ewmMean,
    List.range_succ]

lemma yingVolSq_cfg1_czero : yingVolSq cfg1 czero 0 = some 0 := by
  norm_num [yingVolSq, rollMean, collect, yingTerm, diff, ma, cfg1, czero, ewmMean,
    List.range_succ]

lemma yang_vol_cfg1_czero : yang_vol cfg1 czero 0 = some 0 := by
  simp [yang_vol, yangVolSq_cfg1_czero]

lemma ying_vol_cfg1_czero : ying_vol cfg1 czero 0 = some 0 := by
  simp [ying_vol, yingVolSq_cfg1_czero]

lemma total_vol_cfg1_czero : total_vol cfg1 czero 0 = some 0 := by
  rw [total_vol, yang_vol_cfg1_czero, ying_vol_cfg1_czero]
  norm_num

theorem C3_total_vol_dominates_witness :
    yang_vol cfg1 czero 0 = some 0 ∧ ying_vol cfg1 czero 0 = some 0 ∧
    total_vol cfg1 czero 0 = some 0 ∧ max (0 : ℝ) 0 ≤ 0 :=
  ⟨yang_vol_cfg1_czero, ying_vol_cfg1_czero, total_vol_cfg1_czero,
    C3_total_vol_dominates cfg1 czero 0 0 0 0 yang_vol_cfg1_czero
      ying_vol_cfg1_czero total_vol_cfg1_czero⟩

/-! ### C4: the oscillator stays in [-100, 100] -/

/-- C4: wherever the oscillator `YYL` is defined its value lies in the
closed interval `[-100, 100]`. -/
theorem C4_oscillator_range (cfg : Config) (c : ℕ → ℚ) (t : ℕ) (v : ℝ)
    (h : YYL cfg c t = some v) : -100 ≤ v ∧ v ≤ 100 := by
  cases h1 : yang_vol cfg c t with
  | none => simp [YYL, h1] at h
  | some a =>
  cases h2 : ying_vol cfg c t with
  | none => simp [YYL, h1, h2] at h
  | some b =>
  cases h3 : total_vol cfg c t with
  | none => simp [YYL, h1, h2, h3] at h
  | some tv =>
  simp only [YYL, h1, h2, h3] at h
  by_cases htv0 : tv = 0
  · rw [if_pos htv0] at h
    exact absurd h (by simp)
  · rw [if_neg htv0] at h
    have hv : (a - b) / tv * 100 = v := Option.some_inj.mp h
    have ha : 0 ≤ a := by
      obtain ⟨q, _, hq⟩ := Option.map_eq_some'.mp h1
      exact hq ▸ Real.sqrt_nonneg _
    have hb : 0 ≤ b := by
      obtain ⟨q, _, hq⟩ := Option.map_eq_some'.mp h2
      exact hq ▸ Real.sqrt_nonneg _
    have htv : tv = Real.sqrt (a ^ 2 + b ^ 2) := by
      unfold total_vol at h3
      rw [h1, h2] at h3
      simpa using h3.symm
    have hat : a ≤ tv := by
      rw [htv]
      calc a = Real.sqrt (a ^ 2) := (Real.sqrt_sq ha).symm
        _ ≤ Real.sqrt (a ^ 2 + b ^ 2) := Real.sqrt_le_sqrt (by nlinarith [sq_nonneg b])
    have hbt : b ≤ tv := by
      rw [htv]
      calc b = Real.sqrt (b ^ 2) := (Real.sqrt_sq hb).symm
        _ ≤ Real.sqrt (a ^ 2 + b ^ 2) := Real.sqrt_le_sqrt (by nlinarith [sq_nonneg a])
    have htvpos : 0 < tv :=
      lt_of_le_of_ne (htv ▸ Real.sqrt_nonneg _) (Ne.symm htv0)
    have hv' : v * tv = (a - b) * 100 := by
      rw [← hv]; field_simp
    constructor
    · nlinarith [hv', hat, hbt, htvpos, ha, hb]
    · nlinarith [hv', hat, hbt, htvpos, ha, hb]

/-- Witness configuration: simple baseline, `window = 2`. -/
def cfgS : Config := ⟨false, 2, 1⟩

/-- Witness price series `0, 2, 16`: at row 2 the squared yang volatility is
`(1 + 49)/2 = 25` and the squared ying volatility is `0`. -/
def cClimb : ℕ → ℚ := fun t => [0, 2, 16].getD t 0

lemma sqrt_twentyfive : Real.sqrt 25 = 5 := by
  rw [show (25 : ℝ) = 5 ^ 2 by norm_num]
  exact Real.sqrt_sq (by norm_num)

lemma yang_vol_cClimb : yang_vol cfgS cClimb 2 = some 5 := by
  have h : yangVolSq cfgS cClimb 2 = some 25 := by
    norm_num [yangVolSq, rollMean, collect, yangTerm, diff, ma, cfgS, cClimb,
      List.range_succ]
  rw [yang_vol, h]
  simp [sqrt_twentyfive]

lemma ying_vol_cClimb : ying_vol cfgS cClimb 2 = some 0 := by
  have h : yingVolSq cfgS cClimb 2 = some 0 := by
    norm_num [yingVolSq, rollMean, collect, yingTerm, diff, ma, cfgS, cClimb,
      List.range_succ]
  simp [ying_vol, h]

lemma total_vol_cClimb : total_vol cfgS cClimb 2 = some 5 := by
  rw [total_vol, yang_vol_cClimb, ying_vol_cClimb]
  norm_num [sqrt_twentyfive]

lemma YYL_cClimb : YYL cfgS cClimb 2 = some 100 := by
  rw [YYL, yang_vol_cClimb, ying_vol_cClimb, total_vol_cClimb]
  norm_num

theorem C4_oscillator_range_witness :
    YYL cfgS cClimb 2 = some 100 ∧ -100 ≤ (100 : ℝ) ∧ (100 : ℝ) ≤ 100 :=
  ⟨YYL_cClimb, C4_oscillator_range cfgS cClimb 2 100 YYL_cClimb⟩

/-! ### C5: band ordering around the fast baseline -/

lemma yang_vol_nonneg {cfg : Config} {c : ℕ → ℚ} {t : ℕ} {va : ℝ}
    (h : yang_vol cfg c t = some va) : 0 ≤ va := by
  obtain ⟨q, _, hq⟩ := Option.map_eq_some'.mp h
  exact hq ▸ Real.sqrt_nonneg _

lemma ying_vol_nonneg {cfg : Config} {c : ℕ → ℚ} {t : ℕ} {vb : ℝ}
    (h : ying_vol cfg c t = some vb) : 0 ≤ vb := by
  obtain ⟨q, _, hq⟩ := Option.map_eq_some'.mp h
  exact hq ▸ Real.sqrt_nonneg _

/-- C5: in the band frame `calculate_pan_bands` derives from the pipeline's
own volatility frame, every row at which `yang_vol` and `ying_vol` are
defined has `lower_band ≤ baseline2 ≤ upper_band` (so in particular
`lower_band ≤ upper_band`), where `baseline2` is the span-period
exponential moving average of the closes. -/
theorem C5_band_order (cfg : Config) (c : ℕ → ℚ) (n t : ℕ) (va vb : ℝ)
    (ht : t < n) (h1 : yang_vol cfg c t = some va)
    (h2 : ying_vol cfg c t = some vb) :
    ∃ bf : BandFrame, ∃ u l : ℝ,
      calculate_pan_bands cfg c n (some (mkVolFrame cfg c n)) = .ok bf ∧
      bf.upper_band t = some u ∧ bf.lower_band t = some l ∧
      l ≤ ((ewmMean cfg.span c t : ℚ) : ℝ) ∧
      ((ewmMean cfg.span c t : ℚ) : ℝ) ≤ u ∧ l ≤ u := by
  have hva : 0 ≤ va := yang_vol_nonneg h1
  have hvb : 0 ≤ vb := ying_vol_nonneg h2
  refine ⟨_, ((ewmMean cfg.span c t : ℚ) : ℝ) + 2 * va,
    ((ewmMean cfg.span c t : ℚ) : ℝ) - 2 * vb, rfl, ?_, ?_, ?_, ?_, ?_⟩
  · simp [calculate_pan_bands, mkVolFrame, List.mem_range, ht, h1]
  · simp [calculate_pan_bands, mkVolFrame, List.mem_range, ht, h2]
  · linarith
  · linarith
  · linarith

theorem C5_band_order_witness :
    (0 < 1 ∧ yang_vol cfg1 czero 0 = some 0 ∧ ying_vol cfg1 czero 0 = some 0) ∧
    (∃ bf : BandFrame, ∃ u l : ℝ,
      calculate_pan_bands cfg1 czero 1 (some (mkVolFrame cfg1 czero 1)) = .ok bf ∧
      bf.upper_band 0 = some u ∧ bf.lower_band 0 = some l ∧
      l ≤ ((ewmMean cfg1.span czero 0 : ℚ) : ℝ) ∧
      ((ewmMean cfg1.span czero 0 : ℚ) : ℝ) ≤ u ∧ l ≤ u) :=
  ⟨⟨Nat.zero_lt_one, yang_vol_cfg1_czero, ying_vol_cfg1_czero⟩,
    C5_band_order cfg1 czero 1 0 0 0 Nat.zero_lt_one yang_vol_cfg1_czero
      ying_vol_cfg1_czero⟩

/-! ### C6: a constant price series -/

lemma ma_const_eq_some {cfg : Config} {k m : ℚ} {t : ℕ} (hw : 1 ≤ cfg.window)
    (h : ma cfg (fun _ => k) t = some m) : m = k := by
  unfold ma at h
  by_cases hema : cfg.ema
  · rw [if_pos hema] at h
    rw [← Option.some_inj.mp h, ewmMean_const]
  · rw [if_neg hema,
      rollMean_allConst (Nat.one_le_iff_ne_zero.mp hw) (fun i => rfl)] at h
    split at h
    · exact (Option.some_inj.mp h).symm
    · cases h

lemma diff_const {cfg : Config} {k : ℚ} {t : ℕ} (hw : 1 ≤ cfg.window) :
    ∀ v, diff cfg (fun _ => k) t = some v → v = 0 := by
  intro v hv
  unfold diff at hv
  obtain ⟨m, hm, hmv⟩ := Option.map_eq_some'.mp hv
  rw [← hmv, ma_const_eq_some hw hm, sub_self]

lemma yangTerm_const {cfg : Config} {k : ℚ} (hw : 1 ≤ cfg.window) :
    ∀ t v, yangTerm cfg (fun _ => k) t = some v → v = 0 := by
  intro t v hv
  unfold yangTerm at hv
  obtain ⟨d, hd, hdv⟩ := Option.map_eq_some'.mp hv
  have hd0 : d = 0 := diff_const hw _ hd
  subst hd0
  simpa using hdv.symm

lemma yingTerm_const {cfg : Config} {k : ℚ} (hw : 1 ≤ cfg.window) :
    ∀ t v, yingTerm cfg (fun _ => k) t = some v → v = 0 := by
  intro t v hv
  unfold yingTerm at hv
  obtain ⟨d, hd, hdv⟩ := Option.map_eq_some'.mp hv
  have hd0 : d = 0 := diff_const hw _ hd
  subst hd0
  simpa using hdv.symm

lemma rollMean_eq_some_zero {w t : ℕ} {f : ℕ → Option ℚ} {q : ℚ}
    (hf : ∀ i v, f i = some v → v = 0) (h : rollMean w f t = some q) : q = 0 := by
  unfold rollMean at h
  split at h
  · obtain ⟨l, hl, rfl⟩ := Option.map_eq_some'.mp h
    have hsum : l.sum = 0 := by
      refine List.sum_eq_zero ?_
      intro x hx
      obtain ⟨i, _, hfi⟩ := List.mem_map.mp (collect_mem hl x hx)
      exact hf _ _ hfi
    rw [hsum, zero_div]
  · cases h

lemma yang_vol_const {cfg : Config} {k : ℚ} {t : ℕ} (hw : 1 ≤ cfg.window) :
    ∀ v, yang_vol cfg (fun _ => k) t = some v → v = 0 := by
  intro v hv
  cases hq : yangVolSq cfg (fun _ => k) t with
  | none => rw [yang_vol, hq] at hv; cases hv
  | some q =>
    rw [yang_vol, hq] at hv
    have hq0 : q = 0 := rollMean_eq_some_zero (yangTerm_const hw) hq
    subst hq0
    simpa using hv.symm

lemma ying_vol_const {cfg : Config} {k : ℚ} {t : ℕ} (hw : 1 ≤ cfg.window) :
    ∀ v, ying_vol cfg (fun _ => k) t = some v → v = 0 := by
  intro v hv
  cases hq : yingVolSq cfg (fun _ => k) t with
  | none => rw [ying_vol, hq] at hv; cases hv
  | some q =>
    rw [ying_vol, hq] at hv
    have hq0 : q = 0 := rollMean_eq_some_zero (yingTerm_const hw) hq
    subst hq0
    simpa using hv.symm

lemma YYL_const {cfg : Config} {k : ℚ} {t : ℕ} (hw : 1 ≤ cfg.window) :
    YYL cfg (fun _ => k) t = none := by
  cases hya : yangVolSq cfg (fun _ => k) t with
  | none => simp [YYL, yang_vol, hya]
  | some qa =>
    cases hyi : yingVolSq cfg (fun _ => k) t with
    | none => simp [YYL, yang_vol, ying_vol, hya, hyi]
    | some qb =>
      have hqa : qa = 0 := rollMean_eq_some_zero (yangTerm_const hw) hya
      have hqb : qb = 0 := rollMean_eq_some_zero (yingTerm_const hw) hyi
      subst hqa; subst hqb
      have h1 : yang_vol cfg (fun _ => k) t = some 0 := by simp [yang_vol, hya]
      have h2 : ying_vol cfg (fun _ => k) t = some 0 := by simp [ying_vol, hyi]
      have h3 : total_vol cfg (fun _ => k) t = some 0 := by
        rw [total_vol, h1, h2]; norm_num
      rw [YYL, h1, h2, h3]
      norm_num

/-- C6: on a constant price series every defined `yang_vol` and `ying_vol`
value is zero, the oscillator is missing at every row (the zero denominator
becomes NaN, not a crash), and `calculate_volatility` still completes on
the (nonempty) input. -/
theorem C6_constant_series (cfg : Config) (k : ℚ) (t n : ℕ)
    (hw : 1 ≤ cfg.window) :
    (∀ v, yang_vol cfg (fun _ => k) t = some v → v = 0) ∧
    (∀ v, ying_vol cfg (fun _ => k) t = some v → v = 0) ∧
    YYL cfg (fun _ => k) t = none ∧
    exceptIsOk (calculate_volatility cfg (some (List.replicate (n + 1) k))) = true :=
  ⟨yang_vol_const hw, ying_vol_const hw, YYL_const hw, by
    simp [calculate_volatility, exceptIsOk, List.replicate_succ]⟩

theorem C6_constant_series_witness :
    1 ≤ cfg1.window ∧
    ((∀ v, yang_vol cfg1 (fun _ => (5 : ℚ)) 0 = some v → v = 0) ∧
     (∀ v, ying_vol cfg1 (fun _ => (5 : ℚ)) 0 = some v → v = 0) ∧
     YYL cfg1 (fun _ => (5 : ℚ)) 0 = none ∧
     exceptIsOk (calculate_volatility cfg1 (some (List.replicate (0 + 1) (5 : ℚ)))) = true) :=
  ⟨by decide, C6_constant_series cfg1 5 0 0 (by decide)⟩

/-! ### C7: calculate_volatility raises exactly on absent or empty input -/

/-- C7: `calculate_volatility` succeeds if and only if the price data is
present and nonempty; every failure is the guard of line 69, and every
nonempty series (of any length) yields a volatility frame. -/
theorem C7_volatility_error_iff (cfg : Config) (price : Option (List ℚ)) :
    exceptIsOk (calculate_volatility cfg price) = true ↔
      ∃ l, price = some l ∧ l ≠ [] := by
  cases price with
  | none => simp [calculate_volatility, exceptIsOk]
  | some l =>
    by_cases hl : l = []
    · subst hl
      simp [calculate_volatility, exceptIsOk]
    · simp [calculate_volatility, hl, exceptIsOk]

/-! ### C8: calculate_pan_bands only checks that the frame exists -/

/-- A volatility frame whose timestamp index is deliberately misaligned
with the price series used below (index `[5]` against price index `[0]`). -/
def misalignedVF : VolFrame :=
  ⟨[5], fun _ => none, fun _ => none, fun _ => none, fun _ => none,
    fun _ => none, fun _ => none⟩

/-- C8 counterexample: the volatility frame exists but its index `[5]`
differs from the one-row price index `[0]`, and `calculate_pan_bands`
still succeeds instead of raising. -/
theorem C8_misaligned_no_raise :
    misalignedVF.idx ≠ List.range 1 ∧
    exceptIsOk (calculate_pan_bands cfg1 czero 1 (some misalignedVF)) = true := by
  constructor
  · decide
  · rfl

/-- C8 amended: `calculate_pan_bands` fails exactly when the volatility
frame is absent; a present frame, aligned or not, never raises. -/
theorem C8_bands_error_iff (cfg : Config) (c : ℕ → ℚ) (n : ℕ)
    (vol : Option VolFrame) :
    exceptIsOk (calculate_pan_bands cfg c n vol) = false ↔ vol = none := by
  cases vol <;> simp [calculate_pan_bands, exceptIsOk]

/-! ### C1 and C10: the signal engine -/

lemma trading_signal_eq_one_iff (yyl yyls : ℕ → Option ℝ) (close : ℕ → ℝ)
    (t : ℕ) :
    (trading_signal yyl yyls close t).Signal = 1 ↔
      t ≠ 0 ∧ (status yyl yyls t - status yyl yyls (t - 1) = 1 ∨
        status yyl yyls t - status yyl yyls (t - 1) = 2) ∧
      optLt (yyl t) (-75) := by
  unfold trading_signal
  by_cases ht : t = 0
  · simp [ht]
  · rw [if_neg ht]
    by_cases h1 : (status yyl yyls t - status yyl yyls (t - 1) = 2 ∨
        status yyl yyls t - status yyl yyls (t - 1) = 1) ∧ optLt (yyl t) (-75)
    · rw [if_pos h1]
      constructor
      · intro _
        exact ⟨ht, h1.1.symm, h1.2⟩
      · intro _
        rfl
    · rw [if_neg h1]
      by_cases h2 : (status yyl yyls t - status yyl yyls (t - 1) = -2 ∨
          status yyl yyls t - status yyl yyls (t - 1) = -1) ∧ optGt (yyl t) 75
      · rw [if_pos h2]
        constructor
        · intro h
          simp at h
        · rintro ⟨-, hd, -⟩
          rcases h2.1 with h' | h' <;> rcases hd with h'' | h'' <;> omega
      · rw [if_neg h2]
        constructor
        · intro h
          simp at h
        · rintro ⟨-, hd, hlt⟩
          exact absurd ⟨hd.symm, hlt⟩ h1

lemma trading_signal_eq_negone_iff (yyl yyls : ℕ → Option ℝ) (close : ℕ → ℝ)
    (t : ℕ) :
    (trading_signal yyl yyls close t).Signal = -1 ↔
      t ≠ 0 ∧ (status yyl yyls t - status yyl yyls (t - 1) = -1 ∨
        status yyl yyls t - status yyl yyls (t - 1) = -2) ∧
      optGt (yyl t) 75 := by
  unfold trading_signal
  by_cases ht : t = 0
  · simp [ht]
  · rw [if_neg ht]
    by_cases h1 : (status yyl yyls t - status yyl yyls (t - 1) = 2 ∨
        status yyl yyls t - status yyl yyls (t - 1) = 1) ∧ optLt (yyl t) (-75)
    · rw [if_pos h1]
      constructor
      · intro h
        simp at h
      · rintro ⟨-, hd, -⟩
        rcases h1.1 with h' | h' <;> rcases hd with h'' | h'' <;> omega
    · rw [if_neg h1]
      by_cases h2 : (status yyl yyls t - status yyl yyls (t - 1) = -2 ∨
          status yyl yyls t - status yyl yyls (t - 1) = -1) ∧ optGt (yyl t) 75
      · rw [if_pos h2]
        constructor
        · intro _
          exact ⟨ht, h2.1.symm, h2.2⟩
        · intro _
          rfl
      · rw [if_neg h2]
        constructor
        · intro h
          simp at h
        · rintro ⟨-, hd, hgt⟩
          exact absurd ⟨hd.symm, hgt⟩ h2

lemma trading_signal_entry (yyl yyls : ℕ → Option ℝ) (close : ℕ → ℝ) (t : ℕ)
    (h : (trading_signal yyl yyls close t).Signal = 1) :
    (trading_signal yyl yyls close t).Entry_Price = close t := by
  unfold trading_signal at h ⊢
  by_cases ht : t = 0
  · rw [if_pos ht] at h
    simp at h
  · rw [if_neg ht] at h ⊢
    by_cases h1 : (status yyl yyls t - status yyl yyls (t - 1) = 2 ∨
        status yyl yyls t - status yyl yyls (t - 1) = 1) ∧ optLt (yyl t) (-75)
    · rw [if_pos h1]
    · rw [if_neg h1] at h ⊢
      by_cases h2 : (status yyl yyls t - status yyl yyls (t - 1) = -2 ∨
          status yyl yyls t - status yyl yyls (t - 1) = -1) ∧ optGt (yyl t) 75
      · rw [if_pos h2] at h
        simp at h
      · rw [if_neg h2] at h
        simp at h

lemma trading_signal_exit (yyl yyls : ℕ → Option ℝ) (close : ℕ → ℝ) (t : ℕ)
    (h : (trading_signal yyl yyls close t).Signal = -1) :
    (trading_signal yyl yyls close t).Exit_Price = close t := by
  unfold trading_signal at h ⊢
  by_cases ht : t = 0
  · rw [if_pos ht] at h
    simp at h
  · rw [if_neg ht] at h ⊢
    by_cases h1 : (status yyl yyls t - status yyl yyls (t - 1) = 2 ∨
        status yyl yyls t - status yyl yyls (t - 1) = 1) ∧ optLt (yyl t) (-75)
    · rw [if_pos h1] at h
      simp at h
    · rw [if_neg h1] at h ⊢
      by_cases h2 : (status yyl yyls t - status yyl yyls (t - 1) = -2 ∨
          status yyl yyls t - status yyl yyls (t - 1) = -1) ∧ optGt (yyl t) 75
      · rw [if_pos h2]
      · rw [if_neg h2] at h
        simp at h

lemma trading_signal_trichotomy (yyl yyls : ℕ → Option ℝ) (close : ℕ → ℝ)
    (t : ℕ) :
    (trading_signal yyl yyls close t).Signal = 0 ∨
    (trading_signal yyl yyls close t).Signal = 1 ∨
    (trading_signal yyl yyls close t).Signal = -1 := by
  unfold trading_signal
  split_ifs <;> simp

/-- C1: the signal sequence of `trading_signal` is characterised by the
status-transition rule: with `status` comparing `YYL` against `YYL_slow`
(`0` on ties and undefined rows) and `d = status t - status (t-1)`, a row is
a Buy (`Signal = 1`, entry at the close) exactly when `d` is `1` or `2` and
`YYL t` is defined and below `-75`; a Sell (`Signal = -1`, exit at the
close) exactly when `d` is `-1` or `-2` and `YYL t` is defined and above
`75`; anything else, row `0` included, carries no event. -/
theorem C1_trading_signal_events (yyl yyls : ℕ → Option ℝ) (close : ℕ → ℝ)
    (t : ℕ) :
    ((trading_signal yyl yyls close t).Signal = 1 ↔
      t ≠ 0 ∧ (status yyl yyls t - status yyl yyls (t - 1) = 1 ∨
        status yyl yyls t - status yyl yyls (t - 1) = 2) ∧
      optLt (yyl t) (-75)) ∧
    ((trading_signal yyl yyls close t).Signal = 1 →
      (trading_signal yyl yyls close t).Entry_Price = close t) ∧
    ((trading_signal yyl yyls close t).Signal = -1 ↔
      t ≠ 0 ∧ (status yyl yyls t - status yyl yyls (t - 1) = -1 ∨
        status yyl yyls t - status yyl yyls (t - 1) = -2) ∧
      optGt (yyl t) 75) ∧
    ((trading_signal yyl yyls close t).Signal = -1 →
      (trading_signal yyl yyls close t).Exit_Price = close t) ∧
    ((trading_signal yyl yyls close t).Signal = 0 ∨
     (trading_signal yyl yyls close t).Signal = 1 ∨
     (trading_signal yyl yyls close t).Signal = -1) :=
  ⟨trading_signal_eq_one_iff yyl yyls close t,
    trading_signal_entry yyl yyls close t,
    trading_signal_eq_negone_iff yyl yyls close t,
    trading_signal_exit yyl yyls close t,
    trading_signal_trichotomy yyl yyls close t⟩

/-- C10: the signal frame is total — row `0` is the all-zero default row,
`Position` is `0` everywhere (no code path assigns it), a nonzero
`Entry_Price` occurs only on Buy rows and a nonzero `Exit_Price` only on
Sell rows, and `Signal` always takes one of the three concrete values. -/
theorem C10_signal_frame_total (yyl yyls : ℕ → Option ℝ) (close : ℕ → ℝ)
    (t : ℕ) :
    trading_signal yyl yyls close 0 = ⟨0, 0, 0, 0⟩ ∧
    (trading_signal yyl yyls close t).Position = 0 ∧
    ((trading_signal yyl yyls close t).Entry_Price ≠ 0 →
      (trading_signal yyl yyls close t).Signal = 1) ∧
    ((trading_signal yyl yyls close t).Exit_Price ≠ 0 →
      (trading_signal yyl yyls close t).Signal = -1) ∧
    ((trading_signal yyl yyls close t).Signal = 0 ∨
     (trading_signal yyl yyls close t).Signal = 1 ∨
     (trading_signal yyl yyls close t).Signal = -1) := by
  refine ⟨by simp [trading_signal], ?_, ?_, ?_, trading_signal_trichotomy yyl yyls close t⟩
  · unfold trading_signal
    split_ifs <;> rfl
  · unfold trading_signal
    split_ifs <;> intro h <;> first | rfl | exact absurd rfl h
  · unfold trading_signal
    split_ifs <;> intro h <;> first | rfl | exact absurd rfl h

/-! ### C9: the last-signal summariser -/

/-- C9: with the signals present, `get_last_signal` fails exactly when
every row of the joined frame has an undefined entry; otherwise it returns
the last surviving row — its timestamp, its close, and its signal mapped
`1` to "Buy", `-1` to "Sell" and anything else to "No Signal" — never an
earlier row. -/
theorem C9_last_signal (symbol : String) (vf : VolFrame) (bf : BandFrame)
    (close : ℕ → ℝ) (s : ℕ → SignalRow) (n : ℕ) :
    (exceptIsOk (get_last_signal symbol vf bf close (some s) n) = false ↔
      (List.range n).filter (fun t => rowComplete vf bf t) = []) ∧
    (∀ t, ((List.range n).filter (fun t => rowComplete vf bf t)).getLast? = some t →
      get_last_signal symbol vf bf close (some s) n =
        .ok ⟨symbol,
          if (s t).Signal = 1 then "Buy"
          else if (s t).Signal = -1 then "Sell" else "No Signal",
          t, close t⟩) := by
  unfold get_last_signal
  cases hk : ((List.range n).filter (fun t => rowComplete vf bf t)).getLast? with
  | none =>
    constructor
    · simp [exceptIsOk, List.getLast?_eq_none_iff.mp hk]
    · intro t ht
      exact Option.noConfusion ht
  | some t0 =>
    constructor
    · constructor
      · intro h
        exact absurd h (by simp [exceptIsOk])
      · intro h
        rw [h] at hk
        simp at hk
    · intro t ht
      obtain rfl := Option.some_inj.mp ht
      rfl

/-! ### C2: definedness after warm-up -/

lemma yangTerm_ema_isSome {cfg : Config} {c : ℕ → ℚ} (hema : cfg.ema = true)
    (t : ℕ) : (yangTerm cfg c t).isSome = true := by
  simp [yangTerm, diff, ma, hema]

lemma yingTerm_ema_isSome {cfg : Config} {c : ℕ → ℚ} (hema : cfg.ema = true)
    (t : ℕ) : (yingTerm cfg c t).isSome = true := by
  simp [yingTerm, diff, ma, hema]

lemma yangVolSq_ema_isSome {cfg : Config} {c : ℕ → ℚ} {t : ℕ}
    (hema : cfg.ema = true) (hw : cfg.window ≤ t + 1) :
    (yangVolSq cfg c t).isSome = true := by
  rw [yangVolSq, rollMean_isSome_iff]
  exact ⟨hw, fun i _ => yangTerm_ema_isSome hema _⟩

lemma yingVolSq_ema_isSome {cfg : Config} {c : ℕ → ℚ} {t : ℕ}
    (hema : cfg.ema = true) (hw : cfg.window ≤ t + 1) :
    (yingVolSq cfg c t).isSome = true := by
  rw [yingVolSq, rollMean_isSome_iff]
  exact ⟨hw, fun i _ => yingTerm_ema_isSome hema _⟩

lemma YYL_isSome_of {cfg : Config} {c : ℕ → ℚ} {t : ℕ} {a b : ℚ}
    (ha : yangVolSq cfg c t = some a) (hb : yingVolSq cfg c t = some b)
    (hab : a + b ≠ 0) : (YYL cfg c t).isSome = true := by
  have ha0 : 0 ≤ a := yangVolSq_nonneg ha
  have hb0 : 0 ≤ b := yingVolSq_nonneg hb
  have h1 : yang_vol cfg c t = some (Real.sqrt (a : ℝ)) := by simp [yang_vol, ha]
  have h2 : ying_vol cfg c t = some (Real.sqrt (b : ℝ)) := by simp [ying_vol, hb]
  have h3 : total_vol cfg c t =
      some (Real.sqrt (Real.sqrt (a : ℝ) ^ 2 + Real.sqrt (b : ℝ) ^ 2)) := by
    rw [total_vol, h1, h2]
  have hsq : Real.sqrt (a : ℝ) ^ 2 + Real.sqrt (b : ℝ) ^ 2 = (a : ℝ) + (b : ℝ) := by
    rw [Real.sq_sqrt (by exact_mod_cast ha0), Real.sq_sqrt (by exact_mod_cast hb0)]
  have habQ : 0 < a + b := lt_of_le_of_ne (add_nonneg ha0 hb0) (Ne.symm hab)
  have habR : (0 : ℝ) < (a : ℝ) + (b : ℝ) := by exact_mod_cast habQ
  have htv : Real.sqrt (Real.sqrt (a : ℝ) ^ 2 + Real.sqrt (b : ℝ) ^ 2) ≠ 0 := by
    rw [hsq]
    exact ne_of_gt (Real.sqrt_pos.mpr habR)
  rw [YYL, h1, h2, h3]
  simp [htv]

/-- C2 counterexample, refuting the claimed warm-up bound in both modes.
Simple-baseline mode with `window = 4`, `span = 2` on the strictly rising
series `0,1,2,…` of length `10 = 2*window + span`: at row
`5 = window + span - 1` the column `yang_vol` is still undefined (its own
input, `diff`, only becomes defined at row `window - 1`, so the rolling
mean needs `2*(window-1)` rows of history).  Exponential-baseline mode with
`window = span = 2` on the constant series `1,1,…` of length
`6 = 2*window + span`: at row `3 = window + span - 1` the oscillator `YYL`
is undefined because the total volatility vanishes. -/
theorem C2_warmup_bound_cex :
    ((mkVolFrame ⟨false, 4, 2⟩ (fun u => (u : ℚ)) 10).yang_vol 5 = none) ∧
    ((mkVolFrame ⟨true, 2, 2⟩ (fun _ => (1 : ℚ)) 6).YYL 3 = none) := by
  constructor
  · simp only [mkVolFrame]
    have h : yangVolSq ⟨false, 4, 2⟩ (fun u => (u : ℚ)) 5 = none := by
      norm_num [yangVolSq, rollMean, collect, yangTerm, diff, ma, List.range_succ]
    simp [yang_vol, h]
  · simp only [mkVolFrame]
    exact YYL_const (by decide)

/-- C2 amended: in exponential-baseline mode (`window, span ≥ 1`), on a
series of length `n ≥ 2*window + span` none of whose trailing windows past
row `window - 1` is flat (the squared total volatility never vanishes),
every column of the volatility frame is defined at every row `t` with
`window + span - 1 ≤ t < n`; undefined entries occur only among the first
`window + span - 1` rows. -/
theorem C2_defined_after_warmup (cfg : Config) (c : ℕ → ℚ) (n t : ℕ)
    (hema : cfg.ema = true) (hw : 1 ≤ cfg.window) (hs : 1 ≤ cfg.span)
    (hn : 2 * cfg.window + cfg.span ≤ n)
    (hflat : ∀ u, u < n → cfg.window - 1 ≤ u → totalVolSq cfg c u ≠ some 0)
    (ht1 : cfg.window + cfg.span - 1 ≤ t) (ht2 : t < n) :
    ((mkVolFrame cfg c n).ma t).isSome = true ∧
    ((mkVolFrame cfg c n).yang_vol t).isSome = true ∧
    ((mkVolFrame cfg c n).ying_vol t).isSome = true ∧
    ((mkVolFrame cfg c n).total_vol t).isSome = true ∧
    ((mkVolFrame cfg c n).YYL t).isSome = true ∧
    ((mkVolFrame cfg c n).YYL_slow t).isSome = true := by
  simp only [mkVolFrame]
  have hyyl : ∀ u, cfg.window - 1 ≤ u → u < n → (YYL cfg c u).isSome = true := by
    intro u hu1 hu2
    have hwu : cfg.window ≤ u + 1 := by omega
    obtain ⟨a, ha⟩ := Option.isSome_iff_exists.mp (yangVolSq_ema_isSome hema hwu)
    obtain ⟨b, hb⟩ := Option.isSome_iff_exists.mp (yingVolSq_ema_isSome hema hwu)
    have hab : a + b ≠ 0 := by
      intro h0
      apply hflat u hu2 hu1
      rw [totalVolSq, ha, hb]
      simp [h0]
    exact YYL_isSome_of ha hb hab
  have hwt : cfg.window ≤ t + 1 := by omega
  obtain ⟨a, ha⟩ := Option.isSome_iff_exists.mp
    (yangVolSq_ema_isSome (c := c) hema hwt)
  obtain ⟨b, hb⟩ := Option.isSome_iff_exists.mp
    (yingVolSq_ema_isSome (c := c) hema hwt)
  refine ⟨by simp [ma, hema], by simp [yang_vol, ha], by simp [ying_vol, hb],
    by simp [total_vol, yang_vol, ying_vol, ha, hb], hyyl t (by omega) ht2, ?_⟩
  rw [YYL_slow, rollMean_isSome_iff]
  refine ⟨by omega, ?_⟩
  intro i hi
  exact hyyl (t - i) (by omega) (by omega)

/-- Witness configuration for C2: exponential baseline, `window = span = 2`. -/
def cfg2 : Config := ⟨true, 2, 2⟩

/-- Witness price series for C2: the strictly rising closes `0,1,2,…`. -/
def cIncr : ℕ → ℚ := fun u => (u : ℚ)

theorem C2_defined_after_warmup_witness :
    (cfg2.ema = true ∧ 1 ≤ cfg2.window ∧ 1 ≤ cfg2.span ∧
      2 * cfg2.window + cfg2.span ≤ 6 ∧
      (∀ u, u < 6 → cfg2.window - 1 ≤ u → totalVolSq cfg2 cIncr u ≠ some 0) ∧
      cfg2.window + cfg2.span - 1 ≤ 3 ∧ 3 < 6) ∧
    (((mkVolFrame cfg2 cIncr 6).ma 3).isSome = true ∧
     ((mkVolFrame cfg2 cIncr 6).yang_vol 3).isSome = true ∧
     ((mkVolFrame cfg2 cIncr 6).ying_vol 3).isSome = true ∧
     ((mkVolFrame cfg2 cIncr 6).total_vol 3).isSome = true ∧
     ((mkVolFrame cfg2 cIncr 6).YYL 3).isSome = true ∧
     ((mkVolFrame cfg2 cIncr 6).YYL_slow 3).isSome = true) := by
  have hflat : ∀ u, u < 6 → cfg2.window - 1 ≤ u → totalVolSq cfg2 cIncr u ≠ some 0 := by
    intro u hu hu1
    have hu1' : 1 ≤ u := by simpa [cfg2] using hu1
    interval_cases u <;>
      norm_num [totalVolSq, yangVolSq, yingVolSq, rollMean, collect, yangTerm,
        yingTerm, diff, ma, ewmMean, cfg2, cIncr, List.range_succ]
  exact ⟨⟨rfl, by decide, by decide, by decide, hflat, by decide, by decide⟩,
    C2_defined_after_warmup cfg2 cIncr 6 3 rfl (by decide) (by decide) (by decide)
      hflat (by decide) (by decide)⟩

end YYV
